import Mathlib

/-!
Pulse-counter encoder (`pcnt_encoder.c`)

Shallow embedding of the four shared variables of `pcnt_encoder.c` and of the
functions `count_pulses`, `compute_pulses`, `get_pulses` and `get_direction`.

* `uint32_t` variables are natural numbers; every arithmetic result that is
  stored in one is reduced modulo `2^32 = 4294967296`.
* The interrupt handler `count_pulses` reads the two pins through
  `gpio_get_level`; the two sampled levels (the locals `vel_state` and
  `dir_state`) are the arguments of the embedded function.
* `init_pulses_counter` only configures the pins and registers the handler; it
  does not touch the four variables and is not embedded.
-/

namespace PcntEncoder

/-- Modelled from the spec: the constants `STOPPED`, `FORWARD` and `BACKWARD`
come from the header `pcnt_encoder.h`, which is not part of the sources. The
spec describes the resolved direction as one of three distinct values
FORWARD, BACKWARD, STOPPED; the `int8_t` variable `direction` only ever holds
one of them. -/
inductive Direction where
  | STOPPED
  | FORWARD
  | BACKWARD
deriving DecidableEq, Repr

open Direction

/-- The four file-scope variables of `pcnt_encoder.c` (lines 11-14), in the
order of their declaration. -/
structure State where
  direction : Direction
  forward_count : Nat
  backward_count : Nat
  pulses : Nat
deriving DecidableEq, Repr

/-- Every `uint32_t` field holds a value below `2^32`. -/
def State.wf (s : State) : Prop :=
  s.forward_count < 4294967296 ∧ s.backward_count < 4294967296 ∧ s.pulses < 4294967296

instance (s : State) : Decidable s.wf := by
  unfold State.wf; infer_instance

/-- The initialisers of lines 11-14: `STOPPED`, `0`, `0`, `0`. -/
def init : State :=
  { direction := STOPPED, forward_count := 0, backward_count := 0, pulses := 0 }

/-- Lines 16-28. `vel_state` and `dir_state` are the levels sampled on lines
17-18; `forward_count++` and `backward_count++` are `uint32_t` increments. -/
def count_pulses (vel_state dir_state : Bool) (s : State) : State :=
  if vel_state && !dir_state then
    { s with forward_count := (s.forward_count + 1) % 4294967296 }
  else if !vel_state && dir_state then
    { s with backward_count := (s.backward_count + 1) % 4294967296 }
  else
    s

/-- Line 50: `pulses = (backward_count + forward_count);`. -/
def compute_pulses_line50 (s : State) : State :=
  { s with pulses := (s.backward_count + s.forward_count) % 4294967296 }

/-- Lines 51-53: the counters are read again, `pulses` is read back. -/
def compute_pulses_line51 (s : State) : State :=
  if s.backward_count < s.forward_count then { s with direction := FORWARD }
  else if s.pulses = 0 then { s with direction := STOPPED }
  else { s with direction := BACKWARD }

/-- Line 55: `backward_count = 0;`. -/
def compute_pulses_line55 (s : State) : State :=
  { s with backward_count := 0 }

/-- Line 56: `forward_count = 0;`. -/
def compute_pulses_line56 (s : State) : State :=
  { s with forward_count := 0 }

/-- Lines 49-58: the returned value (line 57 reads `pulses` back) and the
state after the call. -/
def compute_pulses (s : State) : Nat × State :=
  let s4 := compute_pulses_line56 (compute_pulses_line55
    (compute_pulses_line51 (compute_pulses_line50 s)))
  (s4.pulses, s4)

/-- Conversion of a `uint32_t` value to `int32_t` as the target compiler (GCC)
defines it: the value is reduced modulo `2^32` into the signed range. -/
def toInt32 (n : Nat) : Int :=
  if n % 4294967296 < 2147483648 then ((n % 4294967296 : Nat) : Int)
  else ((n % 4294967296 : Nat) : Int) - 4294967296

/-- Lines 60-62: `int32_t get_pulses(void) { return pulses; }`. -/
def get_pulses (s : State) : Int :=
  toInt32 s.pulses

/-- Lines 64-66: `return direction;` (the widening of `int8_t` to `int32_t`
keeps the value). -/
def get_direction (s : State) : Direction :=
  s.direction

/-- An edge event qualifies when `count_pulses` classifies it as forward,
`(true, false)`, or backward, `(false, true)`. -/
def qualifies (e : Bool × Bool) : Bool :=
  (e.1 && !e.2) || (!e.1 && e.2)

/-- The handler run once for each event of a sequence, first event first. -/
def count_events (es : List (Bool × Bool)) (s : State) : State :=
  es.foldl (fun st e => count_pulses e.1 e.2 st) s

/-- Number of qualifying events in a sequence. -/
def qualifying (es : List (Bool × Bool)) : Nat :=
  (es.filter qualifies).length

/-- Number of events of a sequence classified as forward, `(true, false)`. -/
def forward_events (es : List (Bool × Bool)) : Nat :=
  (es.filter (fun e => e.1 && !e.2)).length

/-- Number of events of a sequence classified as backward, `(false, true)`. -/
def backward_events (es : List (Bool × Bool)) : Nat :=
  (es.filter (fun e => !e.1 && e.2)).length

/-- Consecutive calls of `compute_pulses`: the state after `n` of them. -/
def compute_pulses_times (n : Nat) (s : State) : State :=
  (fun t => (compute_pulses t).2)^[n] s

/-- One operation of a sequential schedule: an edge interrupt with its two
sampled levels, or a call of `compute_pulses`. -/
inductive Op where
  | edge (vel_state dir_state : Bool)
  | compute
deriving DecidableEq, Repr

/-- Operations executed one at a time: the final state and the values returned
by the `compute_pulses` calls, in call order. -/
def run : List Op → State → State × List Nat
  | [], s => (s, [])
  | Op.edge v d :: t, s => run t (count_pulses v d s)
  | Op.compute :: t, s =>
      ((run t (compute_pulses s).2).1, (compute_pulses s).1 :: (run t (compute_pulses s).2).2)

/-- Number of qualifying edge events in a trace. -/
def trace_qualifying : List Op → Nat
  | [] => 0
  | Op.edge v d :: t => (if qualifies (v, d) then 1 else 0) + trace_qualifying t
  | Op.compute :: t => trace_qualifying t

/-- With `k` qualifying edges already seen since the last `compute_pulses`
call (or since the start), every stretch of the trace between consecutive
`compute_pulses` calls holds fewer than `2^32` qualifying edges. -/
def edges_bounded : Nat → List Op → Bool
  | _, [] => true
  | k, Op.edge v d :: t =>
      if qualifies (v, d) then decide (k + 1 < 4294967296) && edges_bounded (k + 1) t
      else edges_bounded k t
  | _, Op.compute :: t => edges_bounded 0 t

/-- The body of `compute_pulses` (lines 50-57) with the interrupt handler
running at each point between two accesses to the accumulators. The operands
of `+` and `<` are read in the order written. `in50` runs between the read of
`backward_count` and the read of `forward_count` on line 50, `after50` between
line 50 and line 51, `in51` between the two reads of line 51, `after53` between
the direction assignment and line 55, `after55` between line 55 and line 56. -/
def compute_pulses_preempted (in50 after50 in51 after53 after55 : List (Bool × Bool))
    (s : State) : Nat × State :=
  let b0 := s.backward_count
  let s1 := count_events in50 s
  let s2 : State := { s1 with pulses := (b0 + s1.forward_count) % 4294967296 }
  let s3 := count_events after50 s2
  let b1 := s3.backward_count
  let s4 := count_events in51 s3
  let s5 : State :=
    if b1 < s4.forward_count then { s4 with direction := FORWARD }
    else if s4.pulses = 0 then { s4 with direction := STOPPED }
    else { s4 with direction := BACKWARD }
  let s6 := count_events after53 s5
  let s7 := compute_pulses_line55 s6
  let s8 := count_events after55 s7
  let s9 := compute_pulses_line56 s8
  (s9.pulses, s9)

/-- Lines 60-62 as a call on the state: the value returned and the state after
the call. The body is a single `return`; no variable is assigned. -/
def get_pulses_call (s : State) : Int × State :=
  (get_pulses s, s)

/-- Lines 64-66 as a call on the state: the value returned and the state after
the call. The body is a single `return`; no variable is assigned. -/
def get_direction_call (s : State) : Direction × State :=
  (get_direction s, s)

/-- Modelled from the spec: the values of the constants `STOPPED`, `FORWARD`
and `BACKWARD` as the absent header `pcnt_encoder.h` defines them. They are
parameters of the functions below. -/
structure DirectionCodes where
  stopped : Int
  forward : Int
  backward : Int

/-- The values of an `int8_t`. -/
abbrev I8 : Type := { x : Int // -128 ≤ x ∧ x ≤ 127 }

/-- Conversion of an integer to `int8_t` as the target compiler (GCC) defines
it on assignment: the value is reduced modulo `2^8` into the signed range. -/
def toInt8 (x : Int) : I8 :=
  ⟨(x + 128) % 256 - 128, by omega⟩

/-- The four variables of lines 11-14 with `direction` as the `int8_t` value
it stores. -/
structure RawState where
  direction : I8
  forward_count : Nat
  backward_count : Nat
  pulses : Nat
deriving DecidableEq

/-- The initialisers of lines 11-14: `direction = STOPPED` converts the
constant to `int8_t`. -/
def init_raw (c : DirectionCodes) : RawState :=
  { direction := toInt8 c.stopped, forward_count := 0, backward_count := 0, pulses := 0 }

/-- Lines 16-28 on the integer-coded state. -/
def count_pulses_raw (vel_state dir_state : Bool) (s : RawState) : RawState :=
  if vel_state && !dir_state then
    { s with forward_count := (s.forward_count + 1) % 4294967296 }
  else if !vel_state && dir_state then
    { s with backward_count := (s.backward_count + 1) % 4294967296 }
  else
    s

/-- Lines 49-58 on the integer-coded state: each branch of lines 51-53 assigns
one of the three constants to the `int8_t` variable, which converts it. -/
def compute_pulses_raw (c : DirectionCodes) (s : RawState) : Nat × RawState :=
  let s1 : RawState := { s with pulses := (s.backward_count + s.forward_count) % 4294967296 }
  let s2 : RawState :=
    if s1.backward_count < s1.forward_count then { s1 with direction := toInt8 c.forward }
    else if s1.pulses = 0 then { s1 with direction := toInt8 c.stopped }
    else { s1 with direction := toInt8 c.backward }
  let s3 : RawState := { s2 with backward_count := 0 }
  let s4 : RawState := { s3 with forward_count := 0 }
  (s4.pulses, s4)

/-- Lines 64-66 on the integer-coded state: the `int8_t` value widens to
`int32_t` unchanged. -/
def get_direction_raw (s : RawState) : Int :=
  s.direction.val

/-- Operations executed one at a time on the integer-coded state. -/
def run_raw (c : DirectionCodes) : List Op → RawState → RawState
  | [], s => s
  | Op.edge v d :: t, s => run_raw c t (count_pulses_raw v d s)
  | Op.compute :: t, s => run_raw c t (compute_pulses_raw c s).2

/-- The header constant of a direction. -/
def DirectionCodes.code (c : DirectionCodes) : Direction → Int
  | STOPPED => c.stopped
  | FORWARD => c.forward
  | BACKWARD => c.backward

/-- The integer-coded state that stands for a state. -/
def encode (c : DirectionCodes) (s : State) : RawState :=
  { direction := toInt8 (c.code s.direction), forward_count := s.forward_count,
    backward_count := s.backward_count, pulses := s.pulses }

/-! ## Edge classifier -/

theorem count_pulses_forward (s : State) :
    count_pulses true false s
      = { s with forward_count := (s.forward_count + 1) % 4294967296 } := by
  simp [count_pulses]

theorem count_pulses_backward (s : State) :
    count_pulses false true s
      = { s with backward_count := (s.backward_count + 1) % 4294967296 } := by
  simp [count_pulses]

theorem count_pulses_ambiguous (v : Bool) (s : State) : count_pulses v v s = s := by
  cases v <;> simp [count_pulses]

/-- C1 (counterexample): with `forward_count = 2^32 - 1` a forward edge wraps
the accumulator to 0 instead of increasing it by 1; likewise for
`backward_count` and a backward edge. -/
theorem count_pulses_wraps_at_max :
    (count_pulses true false
        { direction := STOPPED, forward_count := 4294967295,
          backward_count := 0, pulses := 0 }).forward_count = 0
    ∧ (count_pulses true false
        { direction := STOPPED, forward_count := 4294967295,
          backward_count := 0, pulses := 0 }).forward_count ≠ 4294967295 + 1
    ∧ (count_pulses false true
        { direction := STOPPED, forward_count := 0,
          backward_count := 4294967295, pulses := 0 }).backward_count ≠ 4294967295 + 1 := by
  refine ⟨?_, ?_, ?_⟩ <;> simp [count_pulses]

/-- C1 (amended): decision table of `count_pulses`. On `(true, false)` only
`forward_count` changes, to its successor modulo `2^32` (its successor when it
is below `2^32 - 1`); on `(false, true)` only `backward_count` changes, in the
same way; on `(true, true)` and `(false, false)` the state is unchanged. No
invocation changes both accumulators. -/
theorem count_pulses_decision_table (s : State) :
    (count_pulses true false s
        = { s with forward_count := (s.forward_count + 1) % 4294967296 }
      ∧ (s.forward_count < 4294967295 →
          (count_pulses true false s).forward_count = s.forward_count + 1)
      ∧ (count_pulses true false s).backward_count = s.backward_count)
    ∧ (count_pulses false true s
        = { s with backward_count := (s.backward_count + 1) % 4294967296 }
      ∧ (s.backward_count < 4294967295 →
          (count_pulses false true s).backward_count = s.backward_count + 1)
      ∧ (count_pulses false true s).forward_count = s.forward_count)
    ∧ count_pulses true true s = s
    ∧ count_pulses false false s = s
    ∧ ∀ v d, (count_pulses v d s).forward_count = s.forward_count
        ∨ (count_pulses v d s).backward_count = s.backward_count := by
  refine ⟨⟨count_pulses_forward s, ?_, ?_⟩, ⟨count_pulses_backward s, ?_, ?_⟩,
    count_pulses_ambiguous true s, count_pulses_ambiguous false s, ?_⟩
  · intro h
    rw [count_pulses_forward]
    exact Nat.mod_eq_of_lt (by omega)
  · rw [count_pulses_forward]
  · intro h
    rw [count_pulses_backward]
    exact Nat.mod_eq_of_lt (by omega)
  · rw [count_pulses_backward]
  · intro v d
    cases v <;> cases d <;> simp [count_pulses]

theorem count_pulses_decision_table_witness :
    init.forward_count < 4294967295
    ∧ (count_pulses true false init).forward_count = init.forward_count + 1
    ∧ init.backward_count < 4294967295
    ∧ (count_pulses false true init).backward_count = init.backward_count + 1 :=
  ⟨by decide, (count_pulses_decision_table init).1.2.1 (by decide),
    by decide, (count_pulses_decision_table init).2.1.2.1 (by decide)⟩

/-! ## Interval reducer -/

theorem compute_pulses_eq (s : State) :
    compute_pulses s
      = ((s.backward_count + s.forward_count) % 4294967296,
          { direction :=
              if s.backward_count < s.forward_count then FORWARD
              else if (s.backward_count + s.forward_count) % 4294967296 = 0 then STOPPED
              else BACKWARD,
            forward_count := 0,
            backward_count := 0,
            pulses := (s.backward_count + s.forward_count) % 4294967296 }) := by
  simp only [compute_pulses, compute_pulses_line50, compute_pulses_line51,
    compute_pulses_line55, compute_pulses_line56]
  split_ifs <;> rfl

theorem compute_pulses_counts_zero (s : State) :
    (compute_pulses s).2.forward_count = 0 ∧ (compute_pulses s).2.backward_count = 0 := by
  rw [compute_pulses_eq]
  exact ⟨rfl, rfl⟩

/-- C2: `compute_pulses` returns the unsigned 32-bit sum of the two
accumulators as they are at the call, and the `pulses` field it stores equals
the returned value. -/
theorem compute_pulses_total (s : State) :
    (compute_pulses s).1 = (s.forward_count + s.backward_count) % 4294967296
    ∧ (compute_pulses s).2.pulses = (compute_pulses s).1 := by
  rw [compute_pulses_eq, Nat.add_comm s.forward_count]
  exact ⟨rfl, rfl⟩

/-- C3: after `compute_pulses` the direction is FORWARD when
`backward_count < forward_count`, otherwise STOPPED when the total is 0,
otherwise BACKWARD; accumulators (5, 2) give 7 and FORWARD, (1, 4) give 5 and
BACKWARD. -/
theorem compute_pulses_direction (s : State) :
    (compute_pulses s).2.direction
        = (if s.backward_count < s.forward_count then FORWARD
           else if (compute_pulses s).1 = 0 then STOPPED
           else BACKWARD)
    ∧ (∀ d p, (compute_pulses ⟨d, 5, 2, p⟩).1 = 7
        ∧ (compute_pulses ⟨d, 5, 2, p⟩).2.pulses = 7
        ∧ (compute_pulses ⟨d, 5, 2, p⟩).2.direction = FORWARD)
    ∧ (∀ d p, (compute_pulses ⟨d, 1, 4, p⟩).1 = 5
        ∧ (compute_pulses ⟨d, 1, 4, p⟩).2.pulses = 5
        ∧ (compute_pulses ⟨d, 1, 4, p⟩).2.direction = BACKWARD) := by
  refine ⟨?_, ?_, ?_⟩
  · rw [compute_pulses_eq]
  · intro d p
    simp [compute_pulses_eq]
  · intro d p
    simp [compute_pulses_eq]

/-- C4: when `forward_count = backward_count` and the total computed by
`compute_pulses` is positive, the direction resolves to BACKWARD, not FORWARD
and not STOPPED; with both accumulators at 3 the call yields 6 and
BACKWARD. -/
theorem compute_pulses_tie_break (s : State)
    (heq : s.forward_count = s.backward_count)
    (hpos : 0 < (compute_pulses s).1) :
    (compute_pulses s).2.direction = BACKWARD
    ∧ (compute_pulses s).2.direction ≠ FORWARD
    ∧ (compute_pulses s).2.direction ≠ STOPPED
    ∧ (∀ d p, (compute_pulses ⟨d, 3, 3, p⟩).1 = 6
        ∧ (compute_pulses ⟨d, 3, 3, p⟩).2.pulses = 6
        ∧ (compute_pulses ⟨d, 3, 3, p⟩).2.direction = BACKWARD) := by
  rw [compute_pulses_eq] at hpos ⊢
  simp only at hpos ⊢
  have h1 : ¬ s.backward_count < s.forward_count := by omega
  have h2 : ¬ (s.backward_count + s.forward_count) % 4294967296 = 0 := by omega
  rw [if_neg h1, if_neg h2]
  refine ⟨rfl, by decide, by decide, ?_⟩
  intro d p
  simp [compute_pulses_eq]

theorem compute_pulses_tie_break_witness :
    (⟨STOPPED, 3, 3, 0⟩ : State).forward_count = (⟨STOPPED, 3, 3, 0⟩ : State).backward_count
    ∧ 0 < (compute_pulses ⟨STOPPED, 3, 3, 0⟩).1
    ∧ (compute_pulses ⟨STOPPED, 3, 3, 0⟩).2.direction = BACKWARD :=
  ⟨rfl, by decide,
    (compute_pulses_tie_break ⟨STOPPED, 3, 3, 0⟩ rfl (by decide)).1⟩

/-- C5: immediately after `compute_pulses` both accumulators are 0. -/
theorem compute_pulses_resets (s : State) :
    (compute_pulses s).2.forward_count = 0
    ∧ (compute_pulses s).2.backward_count = 0 := by
  rw [compute_pulses_eq]
  exact ⟨rfl, rfl⟩

/-- C6: a second consecutive `compute_pulses` returns 0 and leaves
`pulses = 0` and `direction = STOPPED`; every further consecutive call leaves
that state unchanged (and returns 0 again). -/
theorem compute_pulses_idempotent (s : State) :
    (compute_pulses (compute_pulses s).2).1 = 0
    ∧ (compute_pulses (compute_pulses s).2).2.pulses = 0
    ∧ (compute_pulses (compute_pulses s).2).2.direction = STOPPED
    ∧ ∀ n, compute_pulses_times n (compute_pulses (compute_pulses s).2).2
              = (compute_pulses (compute_pulses s).2).2
          ∧ (compute_pulses (compute_pulses_times n (compute_pulses (compute_pulses s).2).2)).1
              = 0 := by
  have h2 : compute_pulses (compute_pulses s).2 = (0, init) := by
    rw [compute_pulses_eq s, compute_pulses_eq]
    simp [init]
  have h3 : compute_pulses init = (0, init) := by
    rw [compute_pulses_eq]
    simp [init]
  have hn : ∀ n, compute_pulses_times n init = init := by
    intro n
    induction n with
    | zero => rfl
    | succ k ih =>
      unfold compute_pulses_times at ih ⊢
      rw [Function.iterate_succ_apply, h3]
      exact ih
  rw [h2]
  refine ⟨rfl, rfl, rfl, ?_⟩
  intro n
  simp only [hn n, h3, and_self]

/-! ## Accessors -/

theorem get_pulses_of_lt (s : State) (h : s.pulses < 2147483648) :
    get_pulses s = (s.pulses : Int) := by
  unfold get_pulses toInt32
  have h1 : s.pulses % 4294967296 = s.pulses := Nat.mod_eq_of_lt (by omega)
  rw [h1, if_pos h]

/-- C7 (failing input): with `forward_count = 2^31` and `backward_count = 0`,
`compute_pulses` returns 2147483648 and stores it, and the following
`get_pulses` returns -2147483648; `get_direction` returns the resolved
direction. -/
theorem get_pulses_differs_at_2_pow_31 :
    (compute_pulses ⟨STOPPED, 2147483648, 0, 0⟩).1 = 2147483648
    ∧ (compute_pulses ⟨STOPPED, 2147483648, 0, 0⟩).2.pulses = 2147483648
    ∧ get_pulses (compute_pulses ⟨STOPPED, 2147483648, 0, 0⟩).2 = -2147483648
    ∧ get_pulses (compute_pulses ⟨STOPPED, 2147483648, 0, 0⟩).2
        ≠ ((compute_pulses ⟨STOPPED, 2147483648, 0, 0⟩).1 : Int)
    ∧ get_direction (compute_pulses ⟨STOPPED, 2147483648, 0, 0⟩).2
        = (compute_pulses ⟨STOPPED, 2147483648, 0, 0⟩).2.direction := by
  rw [compute_pulses_eq]
  simp [get_pulses, toInt32, get_direction]

/-! ## Sequences of edge events -/

theorem count_events_cons (e : Bool × Bool) (es : List (Bool × Bool)) (s : State) :
    count_events (e :: es) s = count_events es (count_pulses e.1 e.2 s) := rfl

theorem forward_events_cons (e : Bool × Bool) (es : List (Bool × Bool)) :
    forward_events (e :: es) = (if (e.1 && !e.2) = true then 1 else 0) + forward_events es := by
  unfold forward_events
  rw [List.filter_cons]
  by_cases h : (e.1 && !e.2) = true
  · rw [if_pos h, if_pos h, List.length_cons, Nat.add_comm]
  · rw [if_neg h, if_neg h, Nat.zero_add]

theorem backward_events_cons (e : Bool × Bool) (es : List (Bool × Bool)) :
    backward_events (e :: es)
      = (if (!e.1 && e.2) = true then 1 else 0) + backward_events es := by
  unfold backward_events
  rw [List.filter_cons]
  by_cases h : (!e.1 && e.2) = true
  · rw [if_pos h, if_pos h, List.length_cons, Nat.add_comm]
  · rw [if_neg h, if_neg h, Nat.zero_add]

theorem qualifying_cons (e : Bool × Bool) (es : List (Bool × Bool)) :
    qualifying (e :: es) = (if qualifies e = true then 1 else 0) + qualifying es := by
  unfold qualifying
  rw [List.filter_cons]
  by_cases h : qualifies e = true
  · rw [if_pos h, if_pos h, List.length_cons, Nat.add_comm]
  · rw [if_neg h, if_neg h, Nat.zero_add]

theorem qualifying_eq (es : List (Bool × Bool)) :
    qualifying es = forward_events es + backward_events es := by
  induction es with
  | nil => rfl
  | cons e es ih =>
    rw [qualifying_cons, forward_events_cons, backward_events_cons, ih]
    obtain ⟨v, d⟩ := e
    cases v <;> cases d <;> simp [qualifies] <;> omega

theorem count_events_eq (es : List (Bool × Bool)) (s : State)
    (hf : s.forward_count < 4294967296) (hb : s.backward_count < 4294967296) :
    count_events es s
      = { direction := s.direction,
          forward_count := (s.forward_count + forward_events es) % 4294967296,
          backward_count := (s.backward_count + backward_events es) % 4294967296,
          pulses := s.pulses } := by
  induction es generalizing s with
  | nil =>
    show s = _
    have h1 : (s.forward_count + 0) % 4294967296 = s.forward_count := by omega
    have h2 : (s.backward_count + 0) % 4294967296 = s.backward_count := by omega
    simp only [forward_events, backward_events, List.filter_nil, List.length_nil, h1, h2]
  | cons e es ih =>
    rw [count_events_cons, forward_events_cons, backward_events_cons]
    obtain ⟨v, d⟩ := e
    cases v <;> cases d
    · rw [count_pulses_ambiguous false s, ih s hf hb]
      simp
    · have hb1 : (s.backward_count + 1) % 4294967296 < 4294967296 :=
        Nat.mod_lt _ (by decide)
      rw [count_pulses_backward, ih { s with
        backward_count := (s.backward_count + 1) % 4294967296 } hf hb1]
      simp only [State.mk.injEq, Bool.not_false, Bool.not_true, Bool.and_self, Bool.and_false,
        Bool.false_eq_true, if_true, if_false, true_and, and_true]
      constructor <;> omega
    · have hf1 : (s.forward_count + 1) % 4294967296 < 4294967296 :=
        Nat.mod_lt _ (by decide)
      rw [count_pulses_forward, ih { s with
        forward_count := (s.forward_count + 1) % 4294967296 } hf1 hb]
      simp only [State.mk.injEq, Bool.not_false, Bool.not_true, Bool.and_self, Bool.and_false,
        Bool.false_eq_true, if_true, if_false, true_and, and_true]
      constructor <;> omega
    · rw [count_pulses_ambiguous true s, ih s hf hb]
      simp

theorem compute_after_events (es : List (Bool × Bool)) (d : Direction) (p : Nat) :
    (compute_pulses (count_events es ⟨d, 0, 0, p⟩)).1 = qualifying es % 4294967296 := by
  have h0 : (0 : Nat) < 4294967296 := by decide
  rw [count_events_eq es ⟨d, 0, 0, p⟩ h0 h0, compute_pulses_eq, qualifying_eq]
  simp only [Nat.zero_add]
  omega

theorem qualifying_replicate_forward (n : Nat) :
    qualifying (List.replicate n (true, false)) = n := by
  induction n with
  | zero => rfl
  | succ k ih =>
    rw [List.replicate_succ, qualifying_cons, ih]
    simp [qualifies]
    omega

/-- C8 (counterexample): after `2^32` forward edges from the zero state the
following `compute_pulses` returns 0, while `2^32` events of the sequence are
classified as forward. -/
theorem compute_after_2_pow_32_edges :
    (compute_pulses (count_events (List.replicate 4294967296 (true, false)) init)).1 = 0
    ∧ qualifying (List.replicate 4294967296 (true, false)) = 4294967296 := by
  refine ⟨?_, qualifying_replicate_forward 4294967296⟩
  show (compute_pulses (count_events _ ⟨STOPPED, 0, 0, 0⟩)).1 = 0
  rw [compute_after_events, qualifying_replicate_forward]

/-- C8 (amended): from zeroed accumulators, after any finite sequence of edge
events the total that the following `compute_pulses` returns equals the number
of events classified as forward or backward, modulo `2^32`; it equals that
number when fewer than `2^32` events of the sequence qualify. -/
theorem compute_after_events_total (es : List (Bool × Bool)) (d : Direction) (p : Nat) :
    (compute_pulses (count_events es ⟨d, 0, 0, p⟩)).1 = qualifying es % 4294967296
    ∧ (qualifying es < 4294967296 →
        (compute_pulses (count_events es ⟨d, 0, 0, p⟩)).1 = qualifying es) := by
  refine ⟨compute_after_events es d p, fun h => ?_⟩
  rw [compute_after_events, Nat.mod_eq_of_lt h]

theorem compute_after_events_total_witness :
    qualifying [(true, false), (true, true), (false, true), (false, false)] < 4294967296
    ∧ (compute_pulses (count_events
          [(true, false), (true, true), (false, true), (false, false)] ⟨STOPPED, 0, 0, 0⟩)).1
        = 2 :=
  ⟨by decide,
    (compute_after_events_total
      [(true, false), (true, true), (false, true), (false, false)] STOPPED 0).2 (by decide)⟩

/-! ## Sequential schedules -/

theorem run_accounting (tr : List Op) (s : State) (k : Nat)
    (hk : s.forward_count + s.backward_count = k) (hlt : k < 4294967296)
    (hb : edges_bounded k tr = true) :
    (run tr s).2.sum + ((run tr s).1.forward_count + (run tr s).1.backward_count)
      = k + trace_qualifying tr := by
  induction tr generalizing s k with
  | nil => simp [run, trace_qualifying, hk]
  | cons o t ih =>
    cases o with
    | edge v d =>
      cases v <;> cases d
      · have hb1 : edges_bounded k t = true := by simpa [edges_bounded, qualifies] using hb
        have h := ih s k hk hlt hb1
        simpa [run, trace_qualifying, qualifies, count_pulses_ambiguous] using h
      · have hb1 : k + 1 < 4294967296 ∧ edges_bounded (k + 1) t = true := by
          simpa [edges_bounded, qualifies] using hb
        have hm : (s.backward_count + 1) % 4294967296 = s.backward_count + 1 :=
          Nat.mod_eq_of_lt (by omega)
        have h := ih { s with backward_count := (s.backward_count + 1) % 4294967296 }
          (k + 1) (by simp only [hm]; omega) hb1.1 hb1.2
        simp only [run, trace_qualifying, count_pulses_backward]
        simp only [qualifies, Bool.not_false, Bool.not_true, Bool.and_self, Bool.and_false,
          Bool.or_true, Bool.false_or, if_true]
        omega
      · have hb1 : k + 1 < 4294967296 ∧ edges_bounded (k + 1) t = true := by
          simpa [edges_bounded, qualifies] using hb
        have hm : (s.forward_count + 1) % 4294967296 = s.forward_count + 1 :=
          Nat.mod_eq_of_lt (by omega)
        have h := ih { s with forward_count := (s.forward_count + 1) % 4294967296 }
          (k + 1) (by simp only [hm]; omega) hb1.1 hb1.2
        simp only [run, trace_qualifying, count_pulses_forward]
        simp only [qualifies, Bool.not_false, Bool.not_true, Bool.and_self, Bool.and_false,
          Bool.or_false, Bool.true_or, if_true]
        omega
      · have hb1 : edges_bounded k t = true := by simpa [edges_bounded, qualifies] using hb
        have h := ih s k hk hlt hb1
        simpa [run, trace_qualifying, qualifies, count_pulses_ambiguous] using h
    | compute =>
      have hb1 : edges_bounded 0 t = true := by simpa [edges_bounded] using hb
      have hm : (s.backward_count + s.forward_count) % 4294967296 = k :=
        hk ▸ (Nat.add_comm s.forward_count s.backward_count ▸ Nat.mod_eq_of_lt (hk ▸ hlt))
      have hz : (compute_pulses s).2.forward_count + (compute_pulses s).2.backward_count = 0 := by
        rw [(compute_pulses_counts_zero s).1, (compute_pulses_counts_zero s).2]
      have h := ih (compute_pulses s).2 0 hz (by decide) hb1
      have hr : (compute_pulses s).1 = k := by rw [compute_pulses_eq]; exact hm
      simp only [run, trace_qualifying, List.sum_cons, hr]
      omega

theorem run_ends_with_compute (tr : List Op) (s : State)
    (hlast : tr.getLast? = some Op.compute) :
    (run tr s).1.forward_count = 0 ∧ (run tr s).1.backward_count = 0 := by
  induction tr generalizing s with
  | nil => simp at hlast
  | cons o t ih =>
    cases t with
    | nil =>
      have ho : o = Op.compute := by simpa using hlast
      subst ho
      simp only [run]
      exact compute_pulses_counts_zero s
    | cons o2 t2 =>
      have hl : (o2 :: t2).getLast? = some Op.compute := by
        rw [List.getLast?_cons_cons] at hlast
        exact hlast
      cases o with
      | edge v d => exact ih _ hl
      | compute => exact ih _ hl

/-- C9: for every trace of edge events and `compute_pulses` calls executed one
at a time from the initial zero state, ending with a `compute_pulses` call and
holding fewer than `2^32` qualifying edges between consecutive
`compute_pulses` calls, the values returned by the `compute_pulses` calls sum
to the number of qualifying edge events of the trace. -/
theorem run_conservation (tr : List Op)
    (hlast : tr.getLast? = some Op.compute)
    (hbound : edges_bounded 0 tr = true) :
    (run tr init).2.sum = trace_qualifying tr := by
  have h := run_accounting tr init 0 rfl (by decide) hbound
  have h0 := run_ends_with_compute tr init hlast
  omega

theorem run_conservation_witness :
    [Op.edge true false, Op.edge true true, Op.compute, Op.edge false true,
        Op.edge true false, Op.compute].getLast? = some Op.compute
    ∧ edges_bounded 0 [Op.edge true false, Op.edge true true, Op.compute,
        Op.edge false true, Op.edge true false, Op.compute] = true
    ∧ (run [Op.edge true false, Op.edge true true, Op.compute, Op.edge false true,
        Op.edge true false, Op.compute] init).2.sum = 3 :=
  ⟨by decide, by decide,
    run_conservation [Op.edge true false, Op.edge true true, Op.compute,
      Op.edge false true, Op.edge true false, Op.compute] (by decide) (by decide)⟩

/-! ## Preemption of the reducer by the interrupt handler -/

theorem count_events_quiet (es : List (Bool × Bool)) (s : State)
    (h : qualifying es = 0) : count_events es s = s := by
  induction es generalizing s with
  | nil => rfl
  | cons e es ih =>
    rw [qualifying_cons] at h
    obtain ⟨v, d⟩ := e
    cases v <;> cases d
    · rw [count_events_cons, count_pulses_ambiguous false s]
      exact ih s (by omega)
    · simp [qualifies] at h
    · simp [qualifies] at h
    · rw [count_events_cons, count_pulses_ambiguous true s]
      exact ih s (by omega)

/-- C10 (counterexample): one forward edge is counted, then a second forward
edge interrupts `compute_pulses` between line 50 and line 51. The call returns
1, the accumulators are reset, and the next call returns 0: two qualifying
edges, returned totals summing to 1. With accumulators (1, 1) the same
interruption stores total 2, taken from (1, 1), and direction FORWARD, taken
from (2, 1), where the uninterrupted call resolves BACKWARD. -/
theorem compute_pulses_preempted_loses_edge :
    (compute_pulses_preempted [] [(true, false)] [] [] []
        (count_pulses true false init)).1 = 1
    ∧ (compute_pulses (compute_pulses_preempted [] [(true, false)] [] [] []
        (count_pulses true false init)).2).1 = 0
    ∧ (compute_pulses_preempted [] [(true, false)] [] [] []
        (count_pulses true false init)).1
      + (compute_pulses (compute_pulses_preempted [] [(true, false)] [] [] []
        (count_pulses true false init)).2).1 ≠ 2
    ∧ (compute_pulses_preempted [] [(true, false)] [] [] [] ⟨STOPPED, 1, 1, 0⟩).2.pulses = 2
    ∧ (compute_pulses_preempted [] [(true, false)] [] [] []
        ⟨STOPPED, 1, 1, 0⟩).2.direction = FORWARD
    ∧ (compute_pulses ⟨STOPPED, 1, 1, 0⟩).2.direction = BACKWARD := by
  decide

/-- C10 (amended): when no qualifying edge interrupts `compute_pulses` between
its accesses to the accumulators (every interrupting edge is ambiguous, or
there is none), the call returns the same value and leaves the same state as
the uninterrupted `compute_pulses`: the total and the direction come from the
same counter values and both accumulators are reset. -/
theorem compute_pulses_preempted_quiet
    (in50 after50 in51 after53 after55 : List (Bool × Bool)) (s : State)
    (h1 : qualifying in50 = 0) (h2 : qualifying after50 = 0) (h3 : qualifying in51 = 0)
    (h4 : qualifying after53 = 0) (h5 : qualifying after55 = 0) :
    compute_pulses_preempted in50 after50 in51 after53 after55 s = compute_pulses s := by
  simp only [compute_pulses_preempted, count_events_quiet _ _ h1, count_events_quiet _ _ h2,
    count_events_quiet _ _ h3, count_events_quiet _ _ h4, count_events_quiet _ _ h5]
  rfl

theorem compute_pulses_preempted_quiet_witness :
    qualifying [(true, true)] = 0 ∧ qualifying [] = 0 ∧ qualifying [(false, false)] = 0
    ∧ compute_pulses_preempted [(true, true)] [] [(false, false)] [] [(true, true)]
        ⟨STOPPED, 5, 2, 0⟩ = (7, ⟨FORWARD, 0, 0, 7⟩) :=
  ⟨by decide, by decide, by decide,
    (compute_pulses_preempted_quiet [(true, true)] [] [(false, false)] [] [(true, true)]
      ⟨STOPPED, 5, 2, 0⟩ (by decide) (by decide) (by decide) (by decide) (by decide)).trans
      (by decide)⟩

/-! ## Monotonicity, frame and initial values -/

theorem count_events_append (es1 es2 : List (Bool × Bool)) (s : State) :
    count_events (es1 ++ es2) s = count_events es2 (count_events es1 s) := by
  unfold count_events
  rw [List.foldl_append]

theorem forward_events_append (es1 es2 : List (Bool × Bool)) :
    forward_events (es1 ++ es2) = forward_events es1 + forward_events es2 := by
  unfold forward_events
  rw [List.filter_append, List.length_append]

theorem backward_events_append (es1 es2 : List (Bool × Bool)) :
    backward_events (es1 ++ es2) = backward_events es1 + backward_events es2 := by
  unfold backward_events
  rw [List.filter_append, List.length_append]

theorem count_events_frame (es : List (Bool × Bool)) (s : State) :
    (count_events es s).pulses = s.pulses ∧ (count_events es s).direction = s.direction := by
  induction es generalizing s with
  | nil => exact ⟨rfl, rfl⟩
  | cons e es ih =>
    rw [count_events_cons]
    obtain ⟨v, d⟩ := e
    have h := ih (count_pulses v d s)
    cases v <;> cases d <;> simpa [count_pulses] using h

/-- C11 (counterexample): with `forward_count = 2^32 - 1` a forward edge
leaves `forward_count = 0`, below its value before the edge. -/
theorem count_pulses_decreases_at_max :
    ¬ ((⟨STOPPED, 4294967295, 7, 0⟩ : State).forward_count
        ≤ (count_pulses true false ⟨STOPPED, 4294967295, 7, 0⟩).forward_count) := by
  simp [count_pulses]

/-- C11 (amended): over a sequence of edge events with no `compute_pulses` in
between, as long as neither accumulator reaches `2^32` (start value plus the
number of its events in the whole sequence stays below `2^32`), the value of
each accumulator after a part of the sequence is at most its value after the
whole sequence. For one edge event from a state with both accumulators below
`2^32`: each accumulator after `count_pulses` is at least its value before,
unless the event increments an accumulator that holds `2^32 - 1`. -/
theorem count_events_monotone (s : State) (es1 es2 : List (Bool × Bool))
    (hf : s.forward_count + forward_events (es1 ++ es2) < 4294967296)
    (hb : s.backward_count + backward_events (es1 ++ es2) < 4294967296) :
    ((count_events es1 s).forward_count ≤ (count_events (es1 ++ es2) s).forward_count
      ∧ (count_events es1 s).backward_count ≤ (count_events (es1 ++ es2) s).backward_count)
    ∧ ∀ v d, ((v && !d) = true → s.forward_count ≠ 4294967295) →
        ((!v && d) = true → s.backward_count ≠ 4294967295) →
        s.forward_count ≤ (count_pulses v d s).forward_count
        ∧ s.backward_count ≤ (count_pulses v d s).backward_count := by
  have hf0 : s.forward_count < 4294967296 := by omega
  have hb0 : s.backward_count < 4294967296 := by omega
  refine ⟨?_, ?_⟩
  · rw [count_events_eq (es1 ++ es2) s hf0 hb0, count_events_eq es1 s hf0 hb0]
    rw [forward_events_append] at hf ⊢
    rw [backward_events_append] at hb ⊢
    simp only
    constructor <;> omega
  · intro v d h1 h2
    cases v <;> cases d
    · rw [count_pulses_ambiguous]
      exact ⟨Nat.le_refl _, Nat.le_refl _⟩
    · have h := h2 rfl
      rw [count_pulses_backward]
      simp only
      constructor <;> omega
    · have h := h1 rfl
      rw [count_pulses_forward]
      simp only
      constructor <;> omega
    · rw [count_pulses_ambiguous]
      exact ⟨Nat.le_refl _, Nat.le_refl _⟩

theorem count_events_monotone_witness :
    init.forward_count + forward_events ([(true, false)] ++ [(false, true), (true, false)])
        < 4294967296
    ∧ init.backward_count + backward_events ([(true, false)] ++ [(false, true), (true, false)])
        < 4294967296
    ∧ (count_events [(true, false)] init).forward_count
        ≤ (count_events ([(true, false)] ++ [(false, true), (true, false)]) init).forward_count
    ∧ init.forward_count ≤ (count_pulses true false init).forward_count :=
  ⟨by decide, by decide,
    (count_events_monotone init [(true, false)] [(false, true), (true, false)]
      (by decide) (by decide)).1.1,
    ((count_events_monotone init [(true, false)] [(false, true), (true, false)]
      (by decide) (by decide)).2 true false (by decide) (by decide)).1⟩

/-- C12: for every state and every sequence of edge events, `count_pulses`
leaves `pulses` and `direction` unchanged, so `get_pulses` and `get_direction`
return the same values before and after the edges; `get_pulses` and
`get_direction` leave the whole state unchanged. -/
theorem accessors_frame (s : State) (es : List (Bool × Bool)) :
    (count_events es s).pulses = s.pulses
    ∧ (count_events es s).direction = s.direction
    ∧ get_pulses (count_events es s) = get_pulses s
    ∧ get_direction (count_events es s) = get_direction s
    ∧ (∀ v d, (count_pulses v d s).pulses = s.pulses
        ∧ (count_pulses v d s).direction = s.direction)
    ∧ (get_pulses_call s).2 = s
    ∧ (get_direction_call s).2 = s := by
  have h := count_events_frame es s
  refine ⟨h.1, h.2, ?_, ?_, ?_, rfl, rfl⟩
  · unfold get_pulses
    rw [h.1]
  · unfold get_direction
    rw [h.2]
  · intro v d
    cases v <;> cases d <;> simp [count_pulses]

/-- C13: in the initial state both accumulators are 0, and after any sequence
of edge events with no `compute_pulses` call yet, `get_pulses` returns 0 and
`get_direction` returns STOPPED. -/
theorem initial_values (es : List (Bool × Bool)) :
    init.forward_count = 0
    ∧ init.backward_count = 0
    ∧ get_pulses (count_events es init) = 0
    ∧ get_direction (count_events es init) = STOPPED := by
  have h := count_events_frame es init
  refine ⟨rfl, rfl, ?_, ?_⟩
  · unfold get_pulses
    rw [h.1]
    rfl
  · unfold get_direction
    rw [h.2]
    rfl

/-- C14: two states that agree on `forward_count` and `backward_count`, with
whatever earlier `pulses` and `direction`, give the same returned value and the
same state after `compute_pulses`. -/
theorem compute_pulses_overwrites (s1 s2 : State)
    (hf : s1.forward_count = s2.forward_count)
    (hb : s1.backward_count = s2.backward_count) :
    (compute_pulses s1).1 = (compute_pulses s2).1
    ∧ (compute_pulses s1).2 = (compute_pulses s2).2 := by
  rw [compute_pulses_eq s1, compute_pulses_eq s2, hf, hb]
  exact ⟨rfl, rfl⟩

theorem compute_pulses_overwrites_witness :
    (⟨FORWARD, 2, 3, 99⟩ : State).forward_count = (⟨STOPPED, 2, 3, 0⟩ : State).forward_count
    ∧ (⟨FORWARD, 2, 3, 99⟩ : State).backward_count
        = (⟨STOPPED, 2, 3, 0⟩ : State).backward_count
    ∧ (compute_pulses ⟨FORWARD, 2, 3, 99⟩).2 = (compute_pulses ⟨STOPPED, 2, 3, 0⟩).2 :=
  ⟨rfl, rfl, (compute_pulses_overwrites ⟨FORWARD, 2, 3, 99⟩ ⟨STOPPED, 2, 3, 0⟩ rfl rfl).2⟩

/-! ## Direction domain -/

theorem count_pulses_raw_direction (v d : Bool) (s : RawState) :
    (count_pulses_raw v d s).direction = s.direction := by
  cases v <;> cases d <;> simp [count_pulses_raw]

theorem compute_pulses_raw_direction (c : DirectionCodes) (s : RawState) :
    (compute_pulses_raw c s).2.direction = toInt8 c.forward
    ∨ (compute_pulses_raw c s).2.direction = toInt8 c.backward
    ∨ (compute_pulses_raw c s).2.direction = toInt8 c.stopped := by
  simp only [compute_pulses_raw]
  split_ifs
  · exact Or.inl rfl
  · exact Or.inr (Or.inr rfl)
  · exact Or.inr (Or.inl rfl)

theorem run_raw_direction (c : DirectionCodes) (tr : List Op) (s : RawState)
    (h : s.direction = toInt8 c.forward ∨ s.direction = toInt8 c.backward
      ∨ s.direction = toInt8 c.stopped) :
    (run_raw c tr s).direction = toInt8 c.forward
    ∨ (run_raw c tr s).direction = toInt8 c.backward
    ∨ (run_raw c tr s).direction = toInt8 c.stopped := by
  induction tr generalizing s with
  | nil => exact h
  | cons o t ih =>
    cases o with
    | edge v d =>
      apply ih (count_pulses_raw v d s)
      rw [count_pulses_raw_direction]
      exact h
    | compute => exact ih _ (compute_pulses_raw_direction c s)

theorem toInt8_val_of_fits (x : Int) (h1 : -128 ≤ x) (h2 : x ≤ 127) :
    (toInt8 x).val = x := by
  show (x + 128) % 256 - 128 = x
  omega

theorem toInt8_200 : (toInt8 200).val = -56 := by
  decide

theorem count_pulses_raw_encode (c : DirectionCodes) (v d : Bool) (s : State) :
    count_pulses_raw v d (encode c s) = encode c (count_pulses v d s) := by
  cases v <;> cases d <;> simp [count_pulses_raw, count_pulses, encode]

theorem compute_pulses_raw_encode (c : DirectionCodes) (s : State) :
    compute_pulses_raw c (encode c s)
      = ((compute_pulses s).1, encode c (compute_pulses s).2) := by
  rw [compute_pulses_eq]
  simp only [compute_pulses_raw, encode]
  split_ifs <;> rfl

theorem run_raw_encode (c : DirectionCodes) (tr : List Op) (s : State) :
    run_raw c tr (encode c s) = encode c (run tr s).1 := by
  induction tr generalizing s with
  | nil => rfl
  | cons o t ih =>
    cases o with
    | edge v d =>
      simp only [run_raw, run]
      rw [count_pulses_raw_encode]
      exact ih _
    | compute =>
      simp only [run_raw, run]
      rw [compute_pulses_raw_encode]
      exact ih _

/-- C15: in every state reached from the initial state by a finite sequence
of `count_pulses` and `compute_pulses` operations, the variable `direction`
holds one of the three constants as converted to `int8_t`; when the header's
constants STOPPED, FORWARD and BACKWARD are `int8_t` values, `direction` is
FORWARD, BACKWARD or STOPPED, and `get_direction` returns one of these three
values. -/
theorem direction_domain (c : DirectionCodes) (tr : List Op)
    (hs : -128 ≤ c.stopped ∧ c.stopped ≤ 127)
    (hf : -128 ≤ c.forward ∧ c.forward ≤ 127)
    (hb : -128 ≤ c.backward ∧ c.backward ≤ 127) :
    ((run_raw c tr (init_raw c)).direction = toInt8 c.forward
      ∨ (run_raw c tr (init_raw c)).direction = toInt8 c.backward
      ∨ (run_raw c tr (init_raw c)).direction = toInt8 c.stopped)
    ∧ ((run_raw c tr (init_raw c)).direction.val = c.forward
      ∨ (run_raw c tr (init_raw c)).direction.val = c.backward
      ∨ (run_raw c tr (init_raw c)).direction.val = c.stopped)
    ∧ (get_direction_raw (run_raw c tr (init_raw c)) = c.forward
      ∨ get_direction_raw (run_raw c tr (init_raw c)) = c.backward
      ∨ get_direction_raw (run_raw c tr (init_raw c)) = c.stopped) := by
  have h := run_raw_direction c tr (init_raw c) (Or.inr (Or.inr rfl))
  have hv : (run_raw c tr (init_raw c)).direction.val = c.forward
      ∨ (run_raw c tr (init_raw c)).direction.val = c.backward
      ∨ (run_raw c tr (init_raw c)).direction.val = c.stopped := by
    rcases h with h | h | h
    · exact Or.inl (by rw [h]; exact toInt8_val_of_fits _ hf.1 hf.2)
    · exact Or.inr (Or.inl (by rw [h]; exact toInt8_val_of_fits _ hb.1 hb.2))
    · exact Or.inr (Or.inr (by rw [h]; exact toInt8_val_of_fits _ hs.1 hs.2))
  exact ⟨h, hv, hv⟩

theorem direction_domain_witness :
    (-128 ≤ (⟨0, 1, -1⟩ : DirectionCodes).stopped ∧ (⟨0, 1, -1⟩ : DirectionCodes).stopped ≤ 127)
    ∧ (-128 ≤ (⟨0, 1, -1⟩ : DirectionCodes).forward
        ∧ (⟨0, 1, -1⟩ : DirectionCodes).forward ≤ 127)
    ∧ (-128 ≤ (⟨0, 1, -1⟩ : DirectionCodes).backward
        ∧ (⟨0, 1, -1⟩ : DirectionCodes).backward ≤ 127)
    ∧ (get_direction_raw (run_raw ⟨0, 1, -1⟩
          [Op.edge true false, Op.compute, Op.edge false true, Op.edge false true, Op.compute]
          (init_raw ⟨0, 1, -1⟩)) = (⟨0, 1, -1⟩ : DirectionCodes).forward
      ∨ get_direction_raw (run_raw ⟨0, 1, -1⟩
          [Op.edge true false, Op.compute, Op.edge false true, Op.edge false true, Op.compute]
          (init_raw ⟨0, 1, -1⟩)) = (⟨0, 1, -1⟩ : DirectionCodes).backward
      ∨ get_direction_raw (run_raw ⟨0, 1, -1⟩
          [Op.edge true false, Op.compute, Op.edge false true, Op.edge false true, Op.compute]
          (init_raw ⟨0, 1, -1⟩)) = (⟨0, 1, -1⟩ : DirectionCodes).stopped) :=
  ⟨by decide, by decide, by decide,
    (direction_domain ⟨0, 1, -1⟩
      [Op.edge true false, Op.compute, Op.edge false true, Op.edge false true, Op.compute]
      (by decide) (by decide) (by decide)).2.2⟩

/-! ## Consistency of the resolved pair and wrap-around -/

/-- C16 (counterexample): with `forward_count = 2^32 - 1` and
`backward_count = 1` the 32-bit total is 0 and `compute_pulses` resolves
FORWARD: a non-STOPPED direction beside zero pulses. -/
theorem compute_pulses_forward_with_zero_pulses :
    (compute_pulses ⟨STOPPED, 4294967295, 1, 0⟩).2.pulses = 0
    ∧ (compute_pulses ⟨STOPPED, 4294967295, 1, 0⟩).2.direction = FORWARD
    ∧ (compute_pulses ⟨STOPPED, 4294967295, 1, 0⟩).2.direction ≠ STOPPED := by
  rw [compute_pulses_eq]
  simp

/-- C16 (amended): after `compute_pulses`, direction STOPPED is reported only
with `pulses = 0`; and when `forward_count + backward_count` at the call is
below `2^32`, the direction is STOPPED exactly when `pulses = 0`. -/
theorem compute_pulses_stopped_iff (s : State) :
    ((compute_pulses s).2.direction = STOPPED → (compute_pulses s).2.pulses = 0)
    ∧ (s.forward_count + s.backward_count < 4294967296 →
        ((compute_pulses s).2.direction = STOPPED ↔ (compute_pulses s).2.pulses = 0)) := by
  rw [compute_pulses_eq]
  simp only
  constructor
  · intro h
    split_ifs at h with h1 h2
    exact h2
  · intro hlt
    have hm : (s.backward_count + s.forward_count) % 4294967296
        = s.backward_count + s.forward_count := Nat.mod_eq_of_lt (by omega)
    constructor
    · intro h
      split_ifs at h with h1 h2
      exact h2
    · intro h
      have h1 : ¬ s.backward_count < s.forward_count := by omega
      rw [if_neg h1, if_pos h]

theorem compute_pulses_stopped_iff_witness :
    (⟨FORWARD, 0, 0, 9⟩ : State).forward_count + (⟨FORWARD, 0, 0, 9⟩ : State).backward_count
        < 4294967296
    ∧ ((compute_pulses ⟨FORWARD, 0, 0, 9⟩).2.direction = STOPPED
        ↔ (compute_pulses ⟨FORWARD, 0, 0, 9⟩).2.pulses = 0)
    ∧ (compute_pulses ⟨FORWARD, 0, 0, 9⟩).2.direction = STOPPED
    ∧ (compute_pulses ⟨FORWARD, 0, 0, 9⟩).2.pulses = 0 :=
  ⟨by decide, (compute_pulses_stopped_iff ⟨FORWARD, 0, 0, 9⟩).2 (by decide),
    by decide, (compute_pulses_stopped_iff ⟨FORWARD, 0, 0, 9⟩).1 (by decide)⟩

/-- C17: from zeroed accumulators, after a sequence of edge events with `n`
forward and `m` backward events, `forward_count = n mod 2^32`,
`backward_count = m mod 2^32`, the following `compute_pulses` returns
`(n + m) mod 2^32` and resolves FORWARD exactly when
`m mod 2^32 < n mod 2^32`. -/
theorem wrap_around (es : List (Bool × Bool)) (d : Direction) (p : Nat) :
    (count_events es ⟨d, 0, 0, p⟩).forward_count = forward_events es % 4294967296
    ∧ (count_events es ⟨d, 0, 0, p⟩).backward_count = backward_events es % 4294967296
    ∧ (compute_pulses (count_events es ⟨d, 0, 0, p⟩)).1
        = (forward_events es + backward_events es) % 4294967296
    ∧ ((compute_pulses (count_events es ⟨d, 0, 0, p⟩)).2.direction = FORWARD
        ↔ backward_events es % 4294967296 < forward_events es % 4294967296) := by
  have h0 : (0 : Nat) < 4294967296 := by decide
  rw [count_events_eq es ⟨d, 0, 0, p⟩ h0 h0, compute_pulses_eq]
  simp only [Nat.zero_add]
  refine ⟨trivial, trivial, by omega, ?_⟩
  constructor
  · intro h
    split_ifs at h with h1
    exact h1
  · intro h
    rw [if_pos h]

/-! ## Order of edges -/

theorem count_pulses_comm (s : State) (e1 e2 : Bool × Bool) :
    count_pulses e2.1 e2.2 (count_pulses e1.1 e1.2 s)
      = count_pulses e1.1 e1.2 (count_pulses e2.1 e2.2 s) := by
  obtain ⟨v1, d1⟩ := e1
  obtain ⟨v2, d2⟩ := e2
  cases v1 <;> cases d1 <;> cases v2 <;> cases d2 <;> simp [count_pulses]

theorem count_events_perm (es1 es2 : List (Bool × Bool)) (h : es1.Perm es2) (s : State) :
    count_events es1 s = count_events es2 s := by
  induction h generalizing s with
  | nil => rfl
  | cons e _ ih =>
    rw [count_events_cons, count_events_cons]
    exact ih _
  | swap e1 e2 l =>
    rw [count_events_cons, count_events_cons, count_events_cons, count_events_cons,
      count_pulses_comm]
  | trans _ _ ih1 ih2 => exact (ih1 s).trans (ih2 s)

/-- C18: for every state and every two edge events, `count_pulses` for the
first then the second leaves the same state as the second then the first; and
for every permutation of a sequence of edge events, the state after the
sequence, the value `compute_pulses` then returns and the state it leaves are
the same. -/
theorem edges_order_insensitive (s : State) (es1 es2 : List (Bool × Bool))
    (h : es1.Perm es2) :
    (∀ e1 e2 : Bool × Bool,
        count_pulses e2.1 e2.2 (count_pulses e1.1 e1.2 s)
          = count_pulses e1.1 e1.2 (count_pulses e2.1 e2.2 s))
    ∧ count_events es1 s = count_events es2 s
    ∧ compute_pulses (count_events es1 s) = compute_pulses (count_events es2 s) := by
  refine ⟨fun e1 e2 => count_pulses_comm s e1 e2, count_events_perm es1 es2 h s, ?_⟩
  rw [count_events_perm es1 es2 h s]

theorem edges_order_insensitive_witness :
    [(true, false), (false, true), (true, true)].Perm [(false, true), (true, true), (true, false)]
    ∧ compute_pulses (count_events [(true, false), (false, true), (true, true)] init)
        = compute_pulses (count_events [(false, true), (true, true), (true, false)] init) :=
  ⟨by decide,
    (edges_order_insensitive init [(true, false), (false, true), (true, true)]
      [(false, true), (true, true), (true, false)] (by decide)).2.2⟩

end PcntEncoder
